import Mathlib

/-!
Verification of the AAVE/CoinMarketCap community scraper crawl core.

A shallow embedding of `src/scraper.py` (the incremental-crawl state machine),
restricted to the state the crawl loop actually reads and writes:

* `Post` / `Item` mirror the dictionaries built by `process_post` and the
  attributes read from a `div.post-wrapper.community` element.
* `CrawlSt` collects the loop variables of `scrape_coinmarketcap`
  (`collected_post_ids`, `posts_data`, `oldest_timestamp_ms`, `scroll_count`,
  `no_new_posts_count`, `same_post_count_scrolls`).
* Timestamps (`float` epoch milliseconds in the source) are modelled as `Int`;
  only comparisons are ever performed on them.  Python's `float('inf')`
  initial value of `oldest_timestamp_ms` is modelled as `none`, and Python's
  truthiness test `if timestamp_ms:` (false for `None` and for `0.0`) is
  modelled explicitly.
* Browser side effects (scrolling, clicking, refreshing, sleeping) have no
  influence on the loop state beyond what is modelled; the enumeration
  `safe_find_elements` of each iteration is supplied as one batch of an input
  list of batches, and exhausting that input models the 3-hour
  `max_runtime` stop at the top of the loop.
* File I/O is modelled as an explicit association list of CSV outputs plus an
  optional checkpoint record.
-/

namespace Scraper

/-- One rendered feed element, as read by `process_post` via
`safe_get_attribute`/`safe_get_text`: the `data-post-id` attribute (absent or
empty string both fail Python's `if not post_id`), the parsed
`data-post-time` attribute, and the extracted content/author texts. -/
structure Item where
  post_id : Option String
  post_time : Option Int
  content : String
  author : String
deriving Repr, DecidableEq

/-- One collected record, the dictionary built at `src/scraper.py:361-368`
(the derived display fields `timestamp` and the wall-clock `scrape_time` are
presentation-only and omitted). -/
structure Post where
  post_id : String
  author : String
  timestamp_ms : Option Int
  content_text : String
deriving Repr, DecidableEq

/-- The loop variables of `scrape_coinmarketcap`.  The Python `set` of
collected ids is modelled as a list used only through membership and
insertion of fresh elements. -/
structure CrawlSt where
  collected_post_ids : List String
  posts_data : List Post
  oldest_timestamp_ms : Option Int
  scroll_count : Nat
  no_new_posts_count : Nat
  same_post_count_scrolls : Nat
deriving Repr, DecidableEq

/-- The JSON record written by `save_checkpoint` (`last_updated` is
wall-clock presentation and omitted). -/
structure Checkpoint where
  collected_post_ids : List String
  oldest_timestamp_ms : Option Int
  scroll_count : Nat
deriving Repr, DecidableEq

/-- The persistent outputs: CSV files by path, plus the single checkpoint
file `checkpoints/scraper_checkpoint.json`. -/
structure FS where
  outputs : List (String × List Post)
  checkpoint : Option Checkpoint
deriving Repr, DecidableEq

/-- Python truthiness of the timestamp (`if timestamp_ms:`): `None` and
`0.0` are falsy. -/
def tsTruthy (o : Option Int) : Bool :=
  match o with
  | none => false
  | some t => t != 0

/-- `timestamp_ms and timestamp_ms < x` at `src/scraper.py:566/569`. -/
def truthyBelow (o : Option Int) (x : Int) : Bool :=
  match o with
  | none => false
  | some t => t != 0 && decide (t < x)

/-- `timestamp_ms and timestamp_ms < oldest_timestamp_ms` where the current
oldest may be `float('inf')` (modelled `none`). -/
def truthyLtOldest (o : Option Int) (oldest : Option Int) : Bool :=
  match o, oldest with
  | none, _ => false
  | some t, none => t != 0
  | some t, some v => t != 0 && decide (t < v)

/-- The `post_data` dictionary built by `process_post` for id `pid`. -/
def mkPost (pid : String) (it : Item) : Post :=
  { post_id := pid
    author := it.author
    timestamp_ms := it.post_time
    content_text := it.content }

/-- `process_post` (`src/scraper.py:245-378`): fail (`None, None`) when the
`data-post-id` attribute is absent or empty, skip when the id is already in
`collected_post_ids` — the dedup gate, checked before timestamp parsing,
read-all expansion and content/author extraction — otherwise produce the id
together with the record.  The expansion/extraction steps only fill the
`content`/`author` fields and never fail (they fall back to defaults), so
they are carried by the `Item` itself. -/
def process_post (collected_post_ids : List String) (it : Item) : Option (String × Post) :=
  match it.post_id with
  | none => none
  | some pid =>
    if pid = "" then none
    else if pid ∈ collected_post_ids then none
    else some (pid, mkPost pid it)

/-- The per-wrapper body of the collection loop (`src/scraper.py:558-572`):
call `process_post`; on success add the id, append the record, lower
`oldest_timestamp_ms` when the new timestamp is truthy and smaller, and
report whether the target-date boundary was hit
(`timestamp_ms and timestamp_ms < target_date`). -/
def processWrapper (target : Int) (st : CrawlSt) (it : Item) : CrawlSt × Bool :=
  match process_post st.collected_post_ids it with
  | none => (st, false)
  | some (pid, post) =>
    let stBase : CrawlSt :=
      { st with
        collected_post_ids := st.collected_post_ids ++ [pid]
        posts_data := st.posts_data ++ [post] }
    let stUpd : CrawlSt :=
      if truthyLtOldest post.timestamp_ms stBase.oldest_timestamp_ms then
        { stBase with oldest_timestamp_ms := post.timestamp_ms }
      else stBase
    (stUpd, truthyBelow post.timestamp_ms target)

/-- Process the wrappers of one chunk in order, stopping at the first
boundary hit (the inner `break` at `src/scraper.py:572`). -/
def processItems (target : Int) (st : CrawlSt) : List Item → CrawlSt × Bool
  | [] => (st, false)
  | it :: rest =>
    match processWrapper target st it with
    | (st1, true) => (st1, true)
    | (st1, false) => processItems target st1 rest

/-- Split a wrapper list into the chunks of `batch_size = 3` iterated by
`for i in range(0, len(post_wrappers), batch_size)` (`src/scraper.py:541-543`). -/
def chunks3 {α : Type} : List α → List (List α)
  | [] => []
  | [a] => [[a]]
  | [a, b] => [[a, b]]
  | a :: b :: c :: rest => [a, b, c] :: chunks3 rest

/-- Process the chunks in order, stopping after the chunk in which the
boundary was hit (`if reached_target_date: break` at `src/scraper.py:577-578`). -/
def processChunks (target : Int) (st : CrawlSt) : List (List Item) → CrawlSt × Bool
  | [] => (st, false)
  | c :: cs =>
    match processItems target st c with
    | (st1, true) => (st1, true)
    | (st1, false) => processChunks target st1 cs

/-- Result of one iteration of the `while True` loop. -/
inductive StepOut where
  | cont (st : CrawlSt)
  | boundary (st : CrawlSt)
  | exhausted (st : CrawlSt)
deriving Repr, DecidableEq

/-- The state carried out of an iteration, whatever its outcome. -/
def StepOut.state : StepOut → CrawlSt
  | .cont st => st
  | .boundary st => st
  | .exhausted st => st

def StepOut.isCont : StepOut → Bool
  | .cont _ => true
  | _ => false

def StepOut.isExhausted : StepOut → Bool
  | .exhausted _ => true
  | _ => false

/-- `no_posts_max_attempts = 10` (`src/scraper.py:412`). -/
def no_posts_max_attempts : Nat := 10

/-- The stalled-scroll counter after one no-progress iteration:
`same_post_count_scrolls += 1` (`src/scraper.py:590`) followed by the reset
to 0 inside the refresh remedy once it reaches 5 (`src/scraper.py:624-628`). -/
def bumpStall (s : Nat) : Nat := if 5 ≤ s + 1 then 0 else s + 1

/-- One iteration of the `while True` loop (`src/scraper.py:472-700`), given
the wrapper enumeration of this iteration.

* Empty enumeration (`src/scraper.py:524-535`): bump `no_new_posts_count`,
  refresh and reset it at the threshold, and `continue` (no scroll counted).
* Otherwise process the wrappers in chunks of 3; a boundary hit breaks out of
  the main loop (`src/scraper.py:580-582`).
* Progress (ids grew) resets both stall counters (`src/scraper.py:585-587`);
  otherwise both are bumped, recovery remedies run from
  `same_post_count_scrolls >= 3`, the refresh remedy at `>= 5` resets
  `same_post_count_scrolls` to 0 (`src/scraper.py:624-628`), and the loop
  breaks as exhausted only when `no_new_posts_count >= 10` and
  `same_post_count_scrolls >= 8` (`src/scraper.py:639-641`).
* All remaining statements of the iteration (mouse movement, pauses, the
  scroll itself, height-unchanged recovery) touch no loop variable except
  the `scroll_count += 1` at `src/scraper.py:697`. -/
def crawl_step (target : Int) (st : CrawlSt) (items : List Item) : StepOut :=
  if items.isEmpty then
    if no_posts_max_attempts ≤ st.no_new_posts_count + 1 then
      .cont { st with no_new_posts_count := 0 }
    else
      .cont { st with no_new_posts_count := st.no_new_posts_count + 1 }
  else
    match processChunks target st (chunks3 items) with
    | (st1, true) => .boundary st1
    | (st1, false) =>
      if st.collected_post_ids.length < st1.collected_post_ids.length then
        .cont { st1 with
                no_new_posts_count := 0
                same_post_count_scrolls := 0
                scroll_count := st1.scroll_count + 1 }
      else
        if no_posts_max_attempts ≤ st1.no_new_posts_count + 1 ∧
            8 ≤ bumpStall st1.same_post_count_scrolls then
          .exhausted { st1 with
                       no_new_posts_count := st1.no_new_posts_count + 1
                       same_post_count_scrolls := bumpStall st1.same_post_count_scrolls }
        else
          .cont { st1 with
                  no_new_posts_count := st1.no_new_posts_count + 1
                  same_post_count_scrolls := bumpStall st1.same_post_count_scrolls
                  scroll_count := st1.scroll_count + 1 }

/-- How a run ended: the wall-clock ceiling at the top of the loop
(modelled by exhausting the supplied enumerations), the target-date
boundary, or the no-new-posts break. -/
inductive RunOutcome where
  | timeLimit
  | boundaryReached
  | exhaustedRun
deriving Repr, DecidableEq

/-- The `while True` loop: one `crawl_step` per supplied enumeration;
running out of supplied enumerations models the `max_runtime` stop. -/
def crawl_run (target : Int) : List (List Item) → CrawlSt → CrawlSt × RunOutcome
  | [], st => (st, .timeLimit)
  | b :: bs, st =>
    match crawl_step target st b with
    | .cont st1 => crawl_run target bs st1
    | .boundary st1 => (st1, .boundaryReached)
    | .exhausted st1 => (st1, .exhaustedRun)

/-- The sort key of `save_data` (`src/scraper.py:160-163`):
`df.sort_values(by='timestamp_ms', ascending=False)` — numeric timestamps
descending, rows whose timestamp is absent (NaN after
`pd.to_numeric(errors='coerce')`) placed last (`na_position='last'`). -/
def postKeyLe (a b : Post) : Bool :=
  match a.timestamp_ms, b.timestamp_ms with
  | some ta, some tb => decide (tb ≤ ta)
  | some _, none => true
  | none, some _ => false
  | none, none => true

/-- A representative of the row order `save_data` persists.  The source
call uses pandas' default `kind='quicksort'`, which is not stable, so the
code fixes no relative order between rows with equal present timestamps;
what it does guarantee is stated by `SortValuesSpec` below, and this
function is one computable representative satisfying that contract (a
stable merge sort), used where an output list is needed.  Claims about tie
order are settled against `SortValuesSpec`, not against this
representative's particular tie order. -/
def sortForOutput (rows : List Post) : List Post := rows.mergeSort postKeyLe

/-- The order contract `df.sort_values(by='timestamp_ms', ascending=False)`
(`src/scraper.py:163`) guarantees for the persisted rows: a permutation of
the store that is sorted by `postKeyLe` (present timestamps descending,
absent-timestamp rows after all present ones), with the absent-timestamp
rows kept in their original relative order (pandas collects the NaN
positions in index order and appends them, independently of the sort kind).
The relative order of rows with equal present timestamps is not part of the
contract: the default `kind='quicksort'` is not a stable sort. -/
def SortValuesSpec (rows out : List Post) : Prop :=
  List.Perm out rows ∧
  out.Pairwise (fun a b => postKeyLe a b = true) ∧
  out.filter (fun p => p.timestamp_ms == none) =
    rows.filter (fun p => p.timestamp_ms == none)

/-- Write (insert or overwrite) one CSV file. -/
def setFile (files : List (String × List Post)) (k : String) (v : List Post) :
    List (String × List Post) :=
  match files with
  | [] => [(k, v)]
  | (k0, v0) :: rest =>
    if k0 = k then (k, v) :: rest else (k0, v0) :: setFile rest k v

/-- Read one CSV file. -/
def getFile (files : List (String × List Post)) (k : String) : Option (List Post) :=
  match files with
  | [] => none
  | (k0, v0) :: rest => if k0 = k then some v0 else getFile rest k

/-- The canonical complete output path (`src/scraper.py:174`). -/
def completePath : String := "output/aave_posts_complete.csv"

/-- `save_data` (`src/scraper.py:152-177`): do nothing on an empty row list;
otherwise sort and write.  The `filename` parameter is accepted but — as in
the source — never used: the output path is chosen from the `intermediate`
flag alone. -/
def save_data_fs (fs : FS) (posts_data : List Post) (filename : String)
    (intermediate : Bool) : FS :=
  if posts_data.isEmpty then fs
  else
    let outfile :=
      if intermediate then
        "output/aave_posts_intermediate_" ++ toString posts_data.length ++ ".csv"
      else completePath
    { fs with outputs := setFile fs.outputs outfile (sortForOutput posts_data) }

/-- `save_checkpoint` (`src/scraper.py:179-193`). -/
def save_checkpoint_fs (fs : FS) (ids : List String) (oldest : Option Int)
    (scroll : Nat) : FS :=
  { fs with
    checkpoint := some
      { collected_post_ids := ids
        oldest_timestamp_ms := oldest
        scroll_count := scroll } }

/-- `load_checkpoint` (`src/scraper.py:195-214`): ids, oldest timestamp
(`float('inf')`, i.e. `none`, when absent) and scroll count, with fresh
defaults when no checkpoint file exists. -/
def load_checkpoint (ck : Option Checkpoint) : List String × Option Int × Nat :=
  match ck with
  | some c => (c.collected_post_ids, c.oldest_timestamp_ms, c.scroll_count)
  | none => ([], none, 0)

/-- `load_existing_data` (`src/scraper.py:216-243`): the rows of whichever
CSV the function settles on (the complete file, else the largest
intermediate file — CSV reading itself is external I/O, so the chosen file's
rows are the input), together with the set of their `post_id` values; fresh
defaults when nothing is found. -/
def load_existing_data (file : Option (List Post)) : List Post × List String :=
  match file with
  | some rows => (rows, rows.map Post.post_id)
  | none => ([], [])

/-- The state assembled before the loop starts (`src/scraper.py:392-398` and
`src/scraper.py:454`): merge (`set.union`) the ids recovered from the data
file with the checkpoint ids, take oldest timestamp and scroll count from
the checkpoint, and zero the stall counters. -/
def initial_state (file : Option (List Post)) (ck : Option Checkpoint) : CrawlSt :=
  let pd := load_existing_data file
  let ckv := load_checkpoint ck
  { collected_post_ids := pd.2.union ckv.1
    posts_data := pd.1
    oldest_timestamp_ms := ckv.2.1
    scroll_count := ckv.2.2
    no_new_posts_count := 0
    same_post_count_scrolls := 0 }

/-- A first run with nothing on disk. -/
def freshSt : CrawlSt := initial_state none none

/-- Nothing on disk. -/
def emptyFS : FS := { outputs := [], checkpoint := none }

/-- The normal end of `scrape_coinmarketcap` (`src/scraper.py:822-824`):
save the complete CSV (the passed filename is ignored by `save_data`) and
the checkpoint. -/
def finalize_fs (fs : FS) (st : CrawlSt) : FS :=
  save_checkpoint_fs
    (save_data_fs fs st.posts_data "aave_posts_complete.csv" false)
    st.collected_post_ids st.oldest_timestamp_ms st.scroll_count

/-- The outermost exception handler (`src/scraper.py:826-831`): on any
unclassified exception, if any posts were collected, persist them with
`save_data(posts_data, "aave_posts_error_recovery.csv", intermediate=False)`
followed by a checkpoint; the exception is logged and not re-raised. -/
def error_recovery_fs (fs : FS) (st : CrawlSt) : FS :=
  if st.posts_data.isEmpty then fs
  else
    save_checkpoint_fs
      (save_data_fs fs st.posts_data "aave_posts_error_recovery.csv" false)
      st.collected_post_ids st.oldest_timestamp_ms st.scroll_count

/-- `it.post_id` with Python falsiness collapsed (only applied to items whose
id is present and non-empty). -/
def itemPid (it : Item) : String := it.post_id.getD ""

/-- `it.post_time` as the integer used in comparisons. -/
def itemTs (it : Item) : Int := it.post_time.getD 0

/-- `oldest_timestamp_ms` update of one successful `process_post`
(`src/scraper.py:565-567`). -/
def oldUpd (o : Option Int) (it : Item) : Option Int :=
  if truthyLtOldest it.post_time o then it.post_time else o

/-- The state after a run of successful, boundary-free `process_post` calls
on the items of `l`: ids and records appended in order, the oldest
timestamp folded down, counters untouched. -/
def bulkAppend (st : CrawlSt) (l : List Item) : CrawlSt :=
  { st with
    collected_post_ids := st.collected_post_ids ++ l.map itemPid
    posts_data := st.posts_data ++ l.map (fun it => mkPost (itemPid it) it)
    oldest_timestamp_ms := l.foldl oldUpd st.oldest_timestamp_ms }

/-- `seenIds ⊇ ids of the record store`: claim C9's invariant. -/
def IdsInv (st : CrawlSt) : Prop :=
  ∀ p ∈ st.posts_data, p.post_id ∈ st.collected_post_ids

/-- `st'` is reachable from `st` by appends only: the id set grows, and
every record either was already present or carries an id that was not yet
seen in `st` (and is seen in `st'`). -/
def ExtendsTo (st st' : CrawlSt) : Prop :=
  (∀ x ∈ st.collected_post_ids, x ∈ st'.collected_post_ids) ∧
  (∀ p ∈ st'.posts_data, p ∈ st.posts_data ∨
     (p.post_id ∉ st.collected_post_ids ∧ p.post_id ∈ st'.collected_post_ids))

/-- `v` is strictly below an oldest-so-far bound (`none` = `float('inf')`). -/
def optLt (v : Int) (o : Option Int) : Prop :=
  match o with
  | none => True
  | some w => v < w

/-- One admissible evolution of `oldest_timestamp_ms`: unchanged, or
replaced by a present value strictly below the previous bound. -/
def OldStep (o o' : Option Int) : Prop :=
  o' = o ∨ ∃ v : Int, o' = some v ∧ optLt v o

/- Concrete inputs for counterexamples and witnesses. -/

/-- A fresh item dated 100 with id `a`. -/
def itm1 : Item := { post_id := some "a", post_time := some 100, content := "p1", author := "u1" }

/-- A fresh item dated 50 with id `b`. -/
def itm2 : Item := { post_id := some "b", post_time := some 50, content := "p2", author := "u2" }

/-- A fresh item dated 40 with id `c`. -/
def itm3 : Item := { post_id := some "c", post_time := some 40, content := "p3", author := "u3" }

/-- An old (dated 30) item with id `a`, used as a re-surfaced already-seen item. -/
def itmOld : Item := { post_id := some "a", post_time := some 30, content := "p1", author := "u1" }

/-- A previously persisted row with id `z`. -/
def itmZ : Item := { post_id := some "z", post_time := some 7, content := "pz", author := "uz" }

/-- A state resuming with id `a` already seen and one stored record. -/
def stSeenA : CrawlSt :=
  { collected_post_ids := ["a"]
    posts_data := [mkPost "a" itmOld]
    oldest_timestamp_ms := some 30
    scroll_count := 5
    no_new_posts_count := 0
    same_post_count_scrolls := 0 }

/-- The previous content of the complete output file. -/
def rowsOld : List Post := [mkPost "z" itmZ]

/-- A filesystem already holding a complete output file. -/
def fsPrev : FS := { outputs := [(completePath, rowsOld)], checkpoint := none }

/-- A record timestamped 50, discovered first among the tied pair. -/
def pTieD : Post :=
  { post_id := "d", author := "u4", timestamp_ms := some 50, content_text := "p4" }

/-- A record timestamped 50, discovered second among the tied pair. -/
def pTieE : Post :=
  { post_id := "e", author := "u5", timestamp_ms := some 50, content_text := "p5" }

/-! ## Basic lemmas about one `process_post` call -/

theorem truthyLtOldest_spec {o oldest : Option Int}
    (h : truthyLtOldest o oldest = true) :
    ∃ v : Int, o = some v ∧ optLt v oldest := by
  match o, oldest with
  | none, _ => simp [truthyLtOldest] at h
  | some t, none => exact ⟨t, rfl, trivial⟩
  | some t, some v =>
    refine ⟨t, rfl, ?_⟩
    simp only [truthyLtOldest, Bool.and_eq_true, decide_eq_true_eq] at h
    exact h.2

/-- Complete case analysis of one loop-body item step
(`src/scraper.py:558-572`). -/
theorem processWrapper_cases (t : Int) (st : CrawlSt) (it : Item) :
    (process_post st.collected_post_ids it = none ∧ processWrapper t st it = (st, false)) ∨
    (∃ pid, it.post_id = some pid ∧ pid ≠ "" ∧ pid ∉ st.collected_post_ids ∧
      (processWrapper t st it).1 =
        { st with
          collected_post_ids := st.collected_post_ids ++ [pid]
          posts_data := st.posts_data ++ [mkPost pid it]
          oldest_timestamp_ms := oldUpd st.oldest_timestamp_ms it } ∧
      (processWrapper t st it).2 = truthyBelow it.post_time t) := by
  rcases hid : it.post_id with _ | pid
  · left
    have hpp : process_post st.collected_post_ids it = none := by
      simp [process_post, hid]
    exact ⟨hpp, by simp [processWrapper, hpp]⟩
  · by_cases hempty : pid = ""
    · left
      have hpp : process_post st.collected_post_ids it = none := by
        simp [process_post, hid, hempty]
      exact ⟨hpp, by simp [processWrapper, hpp]⟩
    · by_cases hmem : pid ∈ st.collected_post_ids
      · left
        have hpp : process_post st.collected_post_ids it = none := by
          simp [process_post, hid, hempty, hmem]
        exact ⟨hpp, by simp [processWrapper, hpp]⟩
      · right
        have hpp : process_post st.collected_post_ids it = some (pid, mkPost pid it) := by
          simp [process_post, hid, hempty, hmem]
        refine ⟨pid, rfl, hempty, hmem, ?_, ?_⟩
        · simp [processWrapper, hpp, mkPost, oldUpd]
          split <;> rfl
        · simp [processWrapper, hpp, mkPost]

/-- A skipped item leaves the state untouched and never reports the
boundary (claims C10, C4, C3). -/
theorem processWrapper_skip (t : Int) (st : CrawlSt) (it : Item)
    (h : process_post st.collected_post_ids it = none) :
    processWrapper t st it = (st, false) := by
  simp [processWrapper, h]

/-- An item whose id is absent, empty, or already seen is skipped by
`process_post`. -/
theorem process_post_eq_none (st : CrawlSt) (it : Item)
    (h : it.post_id = none ∨ it.post_id = some "" ∨
      ∃ pid, it.post_id = some pid ∧ pid ∈ st.collected_post_ids) :
    process_post st.collected_post_ids it = none := by
  rcases h with h | h | ⟨pid, hid, hmem⟩
  · simp [process_post, h]
  · simp [process_post, h]
  · simp [process_post, hid, hmem]

/-! ## Append-only evolution of the loop state -/

theorem extendsTo_rfl (st : CrawlSt) : ExtendsTo st st :=
  ⟨fun _ h => h, fun _ hp => .inl hp⟩

theorem extendsTo_trans {s1 s2 s3 : CrawlSt}
    (h12 : ExtendsTo s1 s2) (h23 : ExtendsTo s2 s3) : ExtendsTo s1 s3 := by
  refine ⟨fun x hx => h23.1 x (h12.1 x hx), fun p hp => ?_⟩
  rcases h23.2 p hp with hp2 | ⟨hnot2, hin3⟩
  · rcases h12.2 p hp2 with hp1 | ⟨hnot1, hin2⟩
    · exact .inl hp1
    · exact .inr ⟨hnot1, h23.1 _ hin2⟩
  · exact .inr ⟨fun hmem => hnot2 (h12.1 _ hmem), hin3⟩

theorem extendsTo_of_eq_cp {st st' : CrawlSt}
    (h1 : st.collected_post_ids = st'.collected_post_ids)
    (h2 : st.posts_data = st'.posts_data) : ExtendsTo st st' := by
  refine ⟨fun x hx => h1 ▸ hx, fun p hp => .inl (h2 ▸ hp)⟩

theorem processWrapper_extendsTo (t : Int) (st : CrawlSt) (it : Item) :
    ExtendsTo st (processWrapper t st it).1 := by
  rcases processWrapper_cases t st it with ⟨_, heq⟩ | ⟨pid, hid, hne, hmem, hst, _⟩
  · rw [heq]; exact extendsTo_rfl st
  · rw [hst]
    constructor
    · intro x hx; simp [hx]
    · intro p hp
      simp only [List.mem_append, List.mem_singleton] at hp
      rcases hp with hp | hp
      · exact .inl hp
      · subst hp
        exact .inr ⟨by simpa [mkPost] using hmem, by simp [mkPost]⟩

/-! ## A generic lifting of step-preserved relations through the loop -/

theorem processItems_rel (R : CrawlSt → CrawlSt → Prop)
    (hrefl : ∀ s, R s s)
    (htrans : ∀ s1 s2 s3, R s1 s2 → R s2 s3 → R s1 s3)
    (hpw : ∀ s it, R s (processWrapper t s it).1)
    (l : List Item) : ∀ st : CrawlSt, R st (processItems t st l).1 := by
  induction l with
  | nil => exact fun st => hrefl st
  | cons it rest ih =>
    intro st
    have hw := hpw st it
    rcases hr : processWrapper t st it with ⟨st1, r⟩
    rw [hr] at hw
    cases r
    · have heq : processItems t st (it :: rest) = processItems t st1 rest := by
        simp [processItems, hr]
      rw [heq]
      exact htrans _ _ _ hw (ih st1)
    · have heq : processItems t st (it :: rest) = (st1, true) := by
        simp [processItems, hr]
      rw [heq]
      exact hw

theorem processChunks_rel (R : CrawlSt → CrawlSt → Prop)
    (hrefl : ∀ s, R s s)
    (htrans : ∀ s1 s2 s3, R s1 s2 → R s2 s3 → R s1 s3)
    (hpw : ∀ s it, R s (processWrapper t s it).1)
    (cs : List (List Item)) : ∀ st : CrawlSt, R st (processChunks t st cs).1 := by
  induction cs with
  | nil => exact fun st => hrefl st
  | cons c cs ih =>
    intro st
    have hw := processItems_rel R hrefl htrans hpw c st
    rcases hr : processItems t st c with ⟨st1, r⟩
    rw [hr] at hw
    cases r
    · have heq : processChunks t st (c :: cs) = processChunks t st1 cs := by
        simp [processChunks, hr]
      rw [heq]
      exact htrans _ _ _ hw (ih st1)
    · have heq : processChunks t st (c :: cs) = (st1, true) := by
        simp [processChunks, hr]
      rw [heq]
      exact hw

theorem crawl_step_rel (R : CrawlSt → CrawlSt → Prop)
    (hrefl : ∀ s, R s s)
    (htrans : ∀ s1 s2 s3, R s1 s2 → R s2 s3 → R s1 s3)
    (hpw : ∀ s it, R s (processWrapper t s it).1)
    (hframe : ∀ (s : CrawlSt) (a b c : Nat),
      R s { s with scroll_count := a, no_new_posts_count := b, same_post_count_scrolls := c })
    (st : CrawlSt) (b : List Item) : R st (crawl_step t st b).state := by
  have hcnt : ∀ (s : CrawlSt) (a b c : Nat),
      R s { s with scroll_count := a, no_new_posts_count := b, same_post_count_scrolls := c } :=
    hframe
  unfold crawl_step
  split
  · split
    · exact hcnt st st.scroll_count 0 st.same_post_count_scrolls
    · exact hcnt st st.scroll_count (st.no_new_posts_count + 1) st.same_post_count_scrolls
  · split
    next st1 heq =>
      have hpc := processChunks_rel R hrefl htrans hpw (chunks3 b) st
      rw [heq] at hpc
      exact hpc
    next st1 heq =>
      have hpc := processChunks_rel R hrefl htrans hpw (chunks3 b) st
      rw [heq] at hpc
      split
      · exact htrans _ _ _ hpc (hcnt st1 (st1.scroll_count + 1) 0 0)
      · split
        · exact htrans _ _ _ hpc
            (hcnt st1 st1.scroll_count (st1.no_new_posts_count + 1)
              (bumpStall st1.same_post_count_scrolls))
        · exact htrans _ _ _ hpc
            (hcnt st1 (st1.scroll_count + 1) (st1.no_new_posts_count + 1)
              (bumpStall st1.same_post_count_scrolls))

theorem crawl_run_rel (R : CrawlSt → CrawlSt → Prop)
    (hrefl : ∀ s, R s s)
    (htrans : ∀ s1 s2 s3, R s1 s2 → R s2 s3 → R s1 s3)
    (hpw : ∀ s it, R s (processWrapper t s it).1)
    (hframe : ∀ (s : CrawlSt) (a b c : Nat),
      R s { s with scroll_count := a, no_new_posts_count := b, same_post_count_scrolls := c })
    (bs : List (List Item)) : ∀ st : CrawlSt, R st (crawl_run t bs st).1 := by
  induction bs with
  | nil => exact fun st => hrefl st
  | cons b bs ih =>
    intro st
    have hstep := crawl_step_rel R hrefl htrans hpw hframe st b
    cases ho : crawl_step t st b with
    | cont st1 =>
      rw [ho] at hstep
      have heq : crawl_run t (b :: bs) st = crawl_run t bs st1 := by
        simp [crawl_run, ho]
      rw [heq]
      exact htrans _ _ _ hstep (ih st1)
    | boundary st1 =>
      rw [ho] at hstep
      have heq : crawl_run t (b :: bs) st = (st1, .boundaryReached) := by
        simp [crawl_run, ho]
      rw [heq]
      exact hstep
    | exhausted st1 =>
      rw [ho] at hstep
      have heq : crawl_run t (b :: bs) st = (st1, .exhaustedRun) := by
        simp [crawl_run, ho]
      rw [heq]
      exact hstep

theorem crawl_run_extendsTo (t : Int) (bs : List (List Item)) (st : CrawlSt) :
    ExtendsTo st (crawl_run t bs st).1 :=
  crawl_run_rel ExtendsTo extendsTo_rfl (fun _ _ _ => extendsTo_trans)
    (fun s it => processWrapper_extendsTo t s it)
    (fun _ _ _ _ => extendsTo_of_eq_cp rfl rfl) bs st

theorem crawl_step_extendsTo (t : Int) (st : CrawlSt) (b : List Item) :
    ExtendsTo st (crawl_step t st b).state :=
  crawl_step_rel ExtendsTo extendsTo_rfl (fun _ _ _ => extendsTo_trans)
    (fun s it => processWrapper_extendsTo t s it)
    (fun _ _ _ _ => extendsTo_of_eq_cp rfl rfl) st b

/-! ## Monotone descent of the oldest-seen timestamp -/

theorem optLt_trans {v w : Int} {o : Option Int} (hvw : v < w) (hwo : optLt w o) :
    optLt v o := by
  cases o with
  | none => trivial
  | some u =>
    simp only [optLt] at hwo ⊢
    omega

theorem oldStep_rfl (o : Option Int) : OldStep o o := .inl rfl

theorem oldStep_trans {o1 o2 o3 : Option Int}
    (h12 : OldStep o1 o2) (h23 : OldStep o2 o3) : OldStep o1 o3 := by
  rcases h23 with rfl | ⟨v, rfl, hv⟩
  · exact h12
  · rcases h12 with rfl | ⟨w, rfl, hw⟩
    · exact .inr ⟨v, rfl, hv⟩
    · refine .inr ⟨v, rfl, ?_⟩
      have hvw : v < w := by simpa [optLt] using hv
      exact optLt_trans hvw hw

theorem oldUpd_oldStep (o : Option Int) (it : Item) : OldStep o (oldUpd o it) := by
  unfold oldUpd
  split
  · next h =>
    obtain ⟨v, hv, hlt⟩ := truthyLtOldest_spec h
    exact .inr ⟨v, hv, hlt⟩
  · exact .inl rfl

theorem processWrapper_oldStep (t : Int) (st : CrawlSt) (it : Item) :
    OldStep st.oldest_timestamp_ms (processWrapper t st it).1.oldest_timestamp_ms := by
  rcases processWrapper_cases t st it with ⟨_, heq⟩ | ⟨pid, _, _, _, hst, _⟩
  · rw [heq]
    exact oldStep_rfl _
  · rw [hst]
    exact oldUpd_oldStep _ _

theorem crawl_step_oldStep (t : Int) (st : CrawlSt) (b : List Item) :
    OldStep st.oldest_timestamp_ms (crawl_step t st b).state.oldest_timestamp_ms :=
  crawl_step_rel (fun s s' => OldStep s.oldest_timestamp_ms s'.oldest_timestamp_ms)
    (fun s => oldStep_rfl _) (fun _ _ _ => oldStep_trans)
    (fun s it => processWrapper_oldStep t s it)
    (fun _ _ _ _ => oldStep_rfl _) st b

theorem crawl_run_oldStep (t : Int) (bs : List (List Item)) (st : CrawlSt) :
    OldStep st.oldest_timestamp_ms (crawl_run t bs st).1.oldest_timestamp_ms :=
  crawl_run_rel (fun s s' => OldStep s.oldest_timestamp_ms s'.oldest_timestamp_ms)
    (fun s => oldStep_rfl _) (fun _ _ _ => oldStep_trans)
    (fun s it => processWrapper_oldStep t s it)
    (fun _ _ _ _ => oldStep_rfl _) bs st

/-! ## The exhausted break is unreachable -/

theorem bumpStall_le (s : Nat) : bumpStall s ≤ 4 := by
  unfold bumpStall
  split <;> omega

theorem crawl_step_not_exhausted (t : Int) (st : CrawlSt) (b : List Item) :
    (crawl_step t st b).isExhausted = false := by
  unfold crawl_step
  split
  · split <;> rfl
  · split
    next => rfl
    next st1 heq =>
      split
      · rfl
      · split
        · next h =>
          exact absurd h.2
            (by have hb := bumpStall_le st1.same_post_count_scrolls; omega)
        · rfl

theorem crawl_run_not_exhausted (t : Int) (bs : List (List Item)) :
    ∀ st : CrawlSt, (crawl_run t bs st).2 ≠ RunOutcome.exhaustedRun := by
  induction bs with
  | nil =>
    intro st h
    simp [crawl_run] at h
  | cons b bs ih =>
    intro st
    have hne := crawl_step_not_exhausted t st b
    cases ho : crawl_step t st b with
    | cont st1 =>
      have heq : crawl_run t (b :: bs) st = crawl_run t bs st1 := by
        simp [crawl_run, ho]
      rw [heq]
      exact ih st1
    | boundary st1 =>
      have heq : crawl_run t (b :: bs) st = (st1, .boundaryReached) := by
        simp [crawl_run, ho]
      rw [heq]
      simp
    | exhausted st1 =>
      rw [ho] at hne
      simp [StepOut.isExhausted] at hne

/-! ## Skipped items leave everything unchanged -/

theorem processItems_all_skip (t : Int) (l : List Item) (st : CrawlSt)
    (h : ∀ it ∈ l, process_post st.collected_post_ids it = none) :
    processItems t st l = (st, false) := by
  induction l with
  | nil => rfl
  | cons it rest ih =>
    have hskip := processWrapper_skip t st it (h it (by simp))
    have heq : processItems t st (it :: rest) = processItems t st rest := by
      simp [processItems, hskip]
    rw [heq]
    exact ih fun it' hit' => h it' (by simp [hit'])

theorem processItems_append (t : Int) (l1 l2 : List Item) : ∀ st : CrawlSt,
    processItems t st (l1 ++ l2) =
      match processItems t st l1 with
      | (st1, true) => (st1, true)
      | (st1, false) => processItems t st1 l2 := by
  induction l1 with
  | nil =>
    intro st
    simp [processItems]
  | cons it rest ih =>
    intro st
    rcases hr : processWrapper t st it with ⟨st1, r⟩
    cases r
    · have h1 : processItems t st (it :: rest ++ l2) = processItems t st1 (rest ++ l2) := by
        simp [processItems, hr]
      have h2 : processItems t st (it :: rest) = processItems t st1 rest := by
        simp [processItems, hr]
      simp only [List.cons_append] at h1 ⊢
      rw [h1, h2, ih st1]
    · have h1 : processItems t st (it :: rest ++ l2) = (st1, true) := by
        simp [processItems, hr]
      have h2 : processItems t st (it :: rest) = (st1, true) := by
        simp [processItems, hr]
      simp only [List.cons_append] at h1 ⊢
      rw [h1, h2]

theorem processChunks_chunks3 (t : Int) : ∀ (l : List Item) (st : CrawlSt),
    processChunks t st (chunks3 l) = processItems t st l
  | [], _ => rfl
  | [a], st => by
    rcases hr : processItems t st [a] with ⟨st1, r⟩
    cases r <;> simp [chunks3, processChunks, hr]
  | [a, b], st => by
    rcases hr : processItems t st [a, b] with ⟨st1, r⟩
    cases r <;> simp [chunks3, processChunks, hr]
  | a :: b :: c :: rest, st => by
    have happ := processItems_append t [a, b, c] rest st
    rcases hr : processItems t st [a, b, c] with ⟨st1, r⟩
    rw [hr] at happ
    cases r
    · have h1 : processChunks t st (chunks3 (a :: b :: c :: rest)) =
          processChunks t st1 (chunks3 rest) := by
        simp [chunks3, processChunks, hr]
      rw [h1, processChunks_chunks3 t rest st1]
      exact happ.symm
    · have h1 : processChunks t st (chunks3 (a :: b :: c :: rest)) = (st1, true) := by
        simp [chunks3, processChunks, hr]
      rw [h1]
      exact happ.symm

/-! ## Fresh items are appended verbatim -/

theorem bulkAppend_nil (st : CrawlSt) : bulkAppend st [] = st := by
  simp [bulkAppend]

theorem bulkAppend_cons (st : CrawlSt) (it : Item) (rest : List Item) :
    bulkAppend st (it :: rest) =
      bulkAppend { st with
        collected_post_ids := st.collected_post_ids ++ [itemPid it]
        posts_data := st.posts_data ++ [mkPost (itemPid it) it]
        oldest_timestamp_ms := oldUpd st.oldest_timestamp_ms it } rest := by
  simp [bulkAppend]

theorem bulkAppend_append (st : CrawlSt) (l1 l2 : List Item) :
    bulkAppend (bulkAppend st l1) l2 = bulkAppend st (l1 ++ l2) := by
  simp [bulkAppend, List.foldl_append]

theorem processWrapper_fresh (t : Int) (st : CrawlSt) (it : Item) (pid : String)
    (hid : it.post_id = some pid) (hne : pid ≠ "")
    (hmem : pid ∉ st.collected_post_ids) :
    processWrapper t st it =
      ({ st with
         collected_post_ids := st.collected_post_ids ++ [itemPid it]
         posts_data := st.posts_data ++ [mkPost (itemPid it) it]
         oldest_timestamp_ms := oldUpd st.oldest_timestamp_ms it },
       truthyBelow it.post_time t) := by
  have hpp : process_post st.collected_post_ids it = some (pid, mkPost pid it) := by
    simp [process_post, hid, hne, hmem]
  have hp : itemPid it = pid := by simp [itemPid, hid]
  rw [hp]
  simp only [processWrapper, hpp, mkPost, oldUpd]
  split <;> rfl

theorem processItems_bulk (t : Int) (l : List Item) : ∀ st : CrawlSt,
    (∀ it ∈ l, ∃ pid, it.post_id = some pid ∧ pid ≠ "") →
    (l.map itemPid).Nodup →
    (∀ it ∈ l, itemPid it ∉ st.collected_post_ids) →
    (∀ it ∈ l, truthyBelow it.post_time t = false) →
    processItems t st l = (bulkAppend st l, false) := by
  induction l with
  | nil =>
    intro st _ _ _ _
    simp [processItems, bulkAppend_nil]
  | cons it rest ih =>
    intro st hids hnodup hfresh hnb
    obtain ⟨pid, hid, hne⟩ := hids it (by simp)
    have hpidv : itemPid it = pid := by simp [itemPid, hid]
    have hmem : pid ∉ st.collected_post_ids := by
      have := hfresh it (by simp)
      rwa [hpidv] at this
    have hpw := processWrapper_fresh t st it pid hid hne hmem
    have hb : truthyBelow it.post_time t = false := hnb it (by simp)
    rw [hb] at hpw
    have heq : processItems t st (it :: rest) =
        processItems t
          { st with
            collected_post_ids := st.collected_post_ids ++ [itemPid it]
            posts_data := st.posts_data ++ [mkPost (itemPid it) it]
            oldest_timestamp_ms := oldUpd st.oldest_timestamp_ms it } rest := by
      simp [processItems, hpw]
    rw [heq, bulkAppend_cons]
    rw [List.map_cons, List.nodup_cons] at hnodup
    refine ih _ (fun it' h => hids it' (by simp [h])) hnodup.2 ?_
      (fun it' h => hnb it' (by simp [h]))
    intro it' h
    simp only [List.mem_append, List.mem_singleton]
    push_neg
    constructor
    · exact hfresh it' (by simp [h])
    · intro hcontra
      exact hnodup.1 (hcontra ▸ List.mem_map_of_mem itemPid h)

theorem processItems_boundary_head (t : Int) (st : CrawlSt) (it : Item)
    (rest : List Item) (pid : String)
    (hid : it.post_id = some pid) (hne : pid ≠ "")
    (hmem : pid ∉ st.collected_post_ids)
    (hb : truthyBelow it.post_time t = true) :
    processItems t st (it :: rest) = (bulkAppend st [it], true) := by
  have hpw := processWrapper_fresh t st it pid hid hne hmem
  rw [hb] at hpw
  have : bulkAppend st [it] =
      { st with
        collected_post_ids := st.collected_post_ids ++ [itemPid it]
        posts_data := st.posts_data ++ [mkPost (itemPid it) it]
        oldest_timestamp_ms := oldUpd st.oldest_timestamp_ms it } := by
    simp [bulkAppend, oldUpd]
  rw [this]
  simp [processItems, hpw]

theorem isEmpty_false_of_ne_nil {α : Type} {l : List α} (h : l ≠ []) :
    l.isEmpty = false := by
  cases l with
  | nil => exact absurd rfl h
  | cons a l => rfl

/-- A non-empty batch of entirely fresh, boundary-free items makes progress:
the iteration appends everything, resets both stall counters and counts the
scroll. -/
theorem crawl_step_good_batch (t : Int) (st : CrawlSt) (b : List Item)
    (hne : b ≠ [])
    (hids : ∀ it ∈ b, ∃ pid, it.post_id = some pid ∧ pid ≠ "")
    (hnodup : (b.map itemPid).Nodup)
    (hfresh : ∀ it ∈ b, itemPid it ∉ st.collected_post_ids)
    (hnb : ∀ it ∈ b, truthyBelow it.post_time t = false) :
    crawl_step t st b = .cont { bulkAppend st b with
      no_new_posts_count := 0
      same_post_count_scrolls := 0
      scroll_count := st.scroll_count + 1 } := by
  have hpc : processChunks t st (chunks3 b) = (bulkAppend st b, false) := by
    rw [processChunks_chunks3]
    exact processItems_bulk t b st hids hnodup hfresh hnb
  have hprog : st.collected_post_ids.length <
      (bulkAppend st b).collected_post_ids.length := by
    have hmapne : b.map itemPid ≠ [] := by simpa using hne
    have hlen : 0 < (b.map itemPid).length := List.length_pos.mpr hmapne
    simp only [bulkAppend, List.length_append]
    omega
  unfold crawl_step
  rw [isEmpty_false_of_ne_nil hne]
  simp only [Bool.false_eq_true, if_false, hpc, if_pos hprog]
  rfl

/-- A batch of fresh boundary-free items followed by a fresh item below the
target date stops the loop at that item: everything before it and the item
itself are appended, nothing after it is processed. -/
theorem crawl_step_boundary_batch (t : Int) (st : CrawlSt)
    (bgood : List Item) (bad : Item) (brest : List Item)
    (hids : ∀ it ∈ bgood ++ bad :: brest, ∃ pid, it.post_id = some pid ∧ pid ≠ "")
    (hnodup : ((bgood ++ bad :: brest).map itemPid).Nodup)
    (hfresh : ∀ it ∈ bgood ++ bad :: brest, itemPid it ∉ st.collected_post_ids)
    (hnb : ∀ it ∈ bgood, truthyBelow it.post_time t = false)
    (hb : truthyBelow bad.post_time t = true) :
    crawl_step t st (bgood ++ bad :: brest) =
      .boundary (bulkAppend st (bgood ++ [bad])) := by
  obtain ⟨pid, hid, hnep⟩ := hids bad (by simp)
  have hgood : processItems t st bgood = (bulkAppend st bgood, false) := by
    refine processItems_bulk t bgood st (fun it h => hids it (by simp [h])) ?_
      (fun it h => hfresh it (by simp [h])) hnb
    have hsub : List.Sublist (bgood.map itemPid) ((bgood ++ bad :: brest).map itemPid) := by
      simp only [List.map_append]
      exact List.sublist_append_left _ _
    exact List.Nodup.sublist hsub hnodup
  have hmembad : pid ∉ (bulkAppend st bgood).collected_post_ids := by
    have hp : itemPid bad = pid := by simp [itemPid, hid]
    simp only [bulkAppend, List.mem_append]
    push_neg
    constructor
    · have := hfresh bad (by simp)
      rwa [hp] at this
    · intro hcontra
      rw [List.map_append, List.map_cons] at hnodup
      have hdj := List.disjoint_of_nodup_append hnodup
      exact hdj (hp ▸ hcontra) (by simp)
  have hbound : processItems t (bulkAppend st bgood) (bad :: brest) =
      (bulkAppend (bulkAppend st bgood) [bad], true) :=
    processItems_boundary_head t _ bad brest pid hid hnep hmembad hb
  have happ := processItems_append t bgood (bad :: brest) st
  rw [hgood] at happ
  have hall : processItems t st (bgood ++ bad :: brest) =
      (bulkAppend st (bgood ++ [bad]), true) := by
    calc processItems t st (bgood ++ bad :: brest)
        = processItems t (bulkAppend st bgood) (bad :: brest) := by rw [happ]
      _ = (bulkAppend (bulkAppend st bgood) [bad], true) := hbound
      _ = (bulkAppend st (bgood ++ [bad]), true) := by rw [bulkAppend_append]
  have hpc : processChunks t st (chunks3 (bgood ++ bad :: brest)) =
      (bulkAppend st (bgood ++ [bad]), true) := by
    rw [processChunks_chunks3, hall]
  have hnel : bgood ++ bad :: brest ≠ [] := by simp
  unfold crawl_step
  rw [isEmpty_false_of_ne_nil hnel]
  simp only [Bool.false_eq_true, if_false, hpc]

/-- Run-level boundary characterization: if the concatenation of the
supplied enumerations is made of well-formed fresh items, the `good` prefix
not below the target date and the next item `bad` below it, the run ends
`boundaryReached` having appended exactly `good ++ [bad]` to the record
store — nothing after the boundary item, in its batch or later batches, is
processed. -/
theorem crawl_run_boundary_split (t : Int) : ∀ (bs : List (List Item)) (st : CrawlSt)
    (good : List Item) (bad : Item) (rest : List Item),
    bs.flatten = good ++ bad :: rest →
    (∀ b ∈ bs, b ≠ []) →
    (∀ it ∈ bs.flatten, ∃ pid, it.post_id = some pid ∧ pid ≠ "") →
    (bs.flatten.map itemPid).Nodup →
    (∀ it ∈ bs.flatten, itemPid it ∉ st.collected_post_ids) →
    (∀ it ∈ good, truthyBelow it.post_time t = false) →
    truthyBelow bad.post_time t = true →
    (crawl_run t bs st).2 = .boundaryReached ∧
    (crawl_run t bs st).1.posts_data =
      st.posts_data ++ (good ++ [bad]).map (fun it => mkPost (itemPid it) it) := by
  intro bs
  induction bs with
  | nil =>
    intro st good bad rest hsplit
    exfalso
    cases good <;> simp at hsplit
  | cons b bs ih =>
    intro st good bad rest hsplit hne hids hnodup hfresh hgood hb
    have hjoin : b ++ bs.flatten = good ++ bad :: rest := by
      simpa using hsplit
    have hmemjoin : ∀ it ∈ b, it ∈ (b :: bs).flatten := by
      intro it h
      simp [h]
    have hmemjoin2 : ∀ it ∈ bs.flatten, it ∈ (b :: bs).flatten := by
      intro it h
      simp [h]
    have hnodupb : (b.map itemPid).Nodup := by
      have hsub : List.Sublist (b.map itemPid) (((b :: bs).flatten).map itemPid) := by
        simp only [List.flatten_cons, List.map_append]
        exact List.sublist_append_left _ _
      exact List.Nodup.sublist hsub hnodup
    have hnodupbs : (bs.flatten.map itemPid).Nodup := by
      have hsub : List.Sublist (bs.flatten.map itemPid) (((b :: bs).flatten).map itemPid) := by
        simp only [List.flatten_cons, List.map_append]
        exact List.sublist_append_right _ _
      exact List.Nodup.sublist hsub hnodup
    have hdisj : ∀ it ∈ bs.flatten, itemPid it ∉ b.map itemPid := by
      intro it h hcontra
      have hnodup2 : ((b.map itemPid) ++ (bs.flatten.map itemPid)).Nodup := by
        simpa [List.flatten_cons, List.map_append] using hnodup
      exact List.disjoint_of_nodup_append hnodup2 hcontra
        (List.mem_map_of_mem itemPid h)
    rcases List.append_eq_append_iff.mp hjoin with ⟨a1, hgood_eq, hjoin1⟩ | ⟨c1, hb_eq, hbad_eq⟩
    · -- the whole batch `b` is a prefix of `good`
      have hbgood : ∀ it ∈ b, truthyBelow it.post_time t = false := by
        intro it h
        exact hgood it (by rw [hgood_eq]; simp [h])
      have hstep := crawl_step_good_batch t st b (hne b (by simp))
        (fun it h => hids it (hmemjoin it h)) hnodupb
        (fun it h => hfresh it (hmemjoin it h)) hbgood
      have hrun : crawl_run t (b :: bs) st =
          crawl_run t bs { bulkAppend st b with
            no_new_posts_count := 0
            same_post_count_scrolls := 0
            scroll_count := st.scroll_count + 1 } := by
        simp [crawl_run, hstep]
      rw [hrun]
      have hres := ih { bulkAppend st b with
          no_new_posts_count := 0
          same_post_count_scrolls := 0
          scroll_count := st.scroll_count + 1 } a1 bad rest hjoin1
        (fun b' h => hne b' (by simp [h]))
        (fun it h => hids it (hmemjoin2 it h)) hnodupbs
        (by
          intro it h
          simp only [bulkAppend, List.mem_append]
          push_neg
          exact ⟨hfresh it (hmemjoin2 it h), hdisj it h⟩)
        (fun it h => hgood it (by rw [hgood_eq]; simp [h])) hb
      refine ⟨hres.1, ?_⟩
      rw [hres.2]
      simp only [bulkAppend, hgood_eq]
      simp [List.map_append, List.append_assoc]
    · cases c1 with
      | nil =>
        -- `b` is exactly `good`; the boundary item opens the later batches
        simp only [List.append_nil] at hb_eq
        simp only [List.nil_append] at hbad_eq
        have hbgood : ∀ it ∈ b, truthyBelow it.post_time t = false := by
          intro it h
          exact hgood it (hb_eq ▸ h)
        have hstep := crawl_step_good_batch t st b (hne b (by simp))
          (fun it h => hids it (hmemjoin it h)) hnodupb
          (fun it h => hfresh it (hmemjoin it h)) hbgood
        have hrun : crawl_run t (b :: bs) st =
            crawl_run t bs { bulkAppend st b with
              no_new_posts_count := 0
              same_post_count_scrolls := 0
              scroll_count := st.scroll_count + 1 } := by
          simp [crawl_run, hstep]
        rw [hrun]
        have hres := ih { bulkAppend st b with
            no_new_posts_count := 0
            same_post_count_scrolls := 0
            scroll_count := st.scroll_count + 1 } [] bad rest hbad_eq.symm
          (fun b' h => hne b' (by simp [h]))
          (fun it h => hids it (hmemjoin2 it h)) hnodupbs
          (by
            intro it h
            simp only [bulkAppend, List.mem_append]
            push_neg
            exact ⟨hfresh it (hmemjoin2 it h), hdisj it h⟩)
          (by intro it h; simp at h) hb
        refine ⟨hres.1, ?_⟩
        rw [hres.2]
        simp only [bulkAppend, hb_eq]
        simp [List.map_append, List.append_assoc]
      | cons x c1' =>
        -- the boundary item lies inside batch `b`
        rw [List.cons_append] at hbad_eq
        injection hbad_eq with hbadx hrest
        subst hbadx
        -- hb_eq : b = good ++ bad :: c1'
        have hstep := crawl_step_boundary_batch t st good bad c1'
          (fun it h => hids it (hmemjoin it (hb_eq ▸ h)))
          (by rw [← hb_eq]; exact hnodupb)
          (fun it h => hfresh it (hmemjoin it (hb_eq ▸ h))) hgood hb
        have hrun : crawl_run t (b :: bs) st =
            (bulkAppend st (good ++ [bad]), .boundaryReached) := by
          rw [hb_eq]
          simp [crawl_run, hstep]
        rw [hrun]
        exact ⟨rfl, by simp [bulkAppend]⟩

/-! ## Entirely-seen batches continue without terminating -/

/-- A non-empty enumeration whose items are all skipped (already seen or
id-less) bumps the stall counters and continues: it neither stops the run
nor touches the store. -/
theorem crawl_step_all_seen (t : Int) (st : CrawlSt) (b : List Item)
    (hne : b ≠ [])
    (h : ∀ it ∈ b, process_post st.collected_post_ids it = none) :
    crawl_step t st b = .cont { st with
      no_new_posts_count := st.no_new_posts_count + 1
      same_post_count_scrolls := bumpStall st.same_post_count_scrolls
      scroll_count := st.scroll_count + 1 } := by
  have hpc : processChunks t st (chunks3 b) = (st, false) := by
    rw [processChunks_chunks3]
    exact processItems_all_skip t b st h
  unfold crawl_step
  rw [isEmpty_false_of_ne_nil hne]
  simp only [Bool.false_eq_true, if_false, hpc]
  rw [if_neg (lt_irrefl _), if_neg ?hcond]
  case hcond =>
    intro hand
    have hle := bumpStall_le st.same_post_count_scrolls
    omega

/-! ## The output sort: total, transitive, stable -/

theorem postKeyLe_total (a b : Post) : postKeyLe a b || postKeyLe b a := by
  unfold postKeyLe
  rcases a.timestamp_ms with _ | ta <;> rcases b.timestamp_ms with _ | tb <;> simp <;> omega

theorem postKeyLe_trans (a b c : Post) :
    postKeyLe a b → postKeyLe b c → postKeyLe a c := by
  unfold postKeyLe
  rcases a.timestamp_ms with _ | ta <;> rcases b.timestamp_ms with _ | tb <;>
    rcases c.timestamp_ms with _ | tc <;> simp <;> omega

theorem sortForOutput_perm (rows : List Post) :
    List.Perm (sortForOutput rows) rows :=
  List.mergeSort_perm rows postKeyLe

theorem sortForOutput_pairwise (rows : List Post) :
    (sortForOutput rows).Pairwise (fun a b => postKeyLe a b = true) :=
  List.sorted_mergeSort postKeyLe_trans postKeyLe_total rows

/-- Stability of the persisted order: the rows selected by any predicate on
which the sort key is indifferent appear in the output in exactly their
original (discovery) order. -/
theorem sortForOutput_filter_eq (rows : List Post) (p : Post → Bool)
    (hkey : ∀ a b : Post, p a = true → p b = true → postKeyLe a b = true) :
    (sortForOutput rows).filter p = rows.filter p := by
  have hsub0 : List.Sublist (rows.filter p) rows := List.filter_sublist rows
  have hpair : (rows.filter p).Pairwise (fun a b => postKeyLe a b = true) := by
    apply List.pairwise_of_forall_mem_list
    intro a ha b hb
    exact hkey a b (List.of_mem_filter ha) (List.of_mem_filter hb)
  have hsub : List.Sublist (rows.filter p) (sortForOutput rows) :=
    List.sublist_mergeSort postKeyLe_trans postKeyLe_total hpair hsub0
  have hself : (rows.filter p).filter p = rows.filter p :=
    List.filter_eq_self.mpr (fun a ha => List.of_mem_filter ha)
  have hsub2 : List.Sublist (rows.filter p) ((sortForOutput rows).filter p) := by
    have := List.Sublist.filter p hsub
    rwa [hself] at this
  have hlen : (rows.filter p).length = ((sortForOutput rows).filter p).length :=
    (List.Perm.length_eq (List.Perm.filter p (sortForOutput_perm rows))).symm
  exact (List.Sublist.eq_of_length hsub2 hlen).symm

/-! ## The file map -/

theorem getFile_setFile_same (files : List (String × List Post))
    (k : String) (v : List Post) :
    getFile (setFile files k v) k = some v := by
  induction files with
  | nil => simp [setFile, getFile]
  | cons kv rest ih =>
    rcases kv with ⟨k0, v0⟩
    by_cases h : k0 = k
    · simp [setFile, getFile, h]
    · simp [setFile, getFile, h, ih]

theorem getFile_setFile_other (files : List (String × List Post))
    (k k' : String) (v : List Post) (h : k' ≠ k) :
    getFile (setFile files k v) k' = getFile files k' := by
  have h2 : k ≠ k' := fun he => h he.symm
  induction files with
  | nil => simp [setFile, getFile, h2]
  | cons kv rest ih =>
    rcases kv with ⟨k0, v0⟩
    by_cases h0 : k0 = k
    · subst h0
      simp [setFile, getFile, h2]
    · simp [setFile, getFile, h0, ih]

theorem idsInv_of_extendsTo {st st' : CrawlSt}
    (hinv : IdsInv st) (h : ExtendsTo st st') : IdsInv st' := by
  intro p hp
  rcases h.2 p hp with hp0 | ⟨_, hin⟩
  · exact h.1 _ (hinv p hp0)
  · exact hin

theorem initial_state_idsInv (file : Option (List Post)) (ck : Option Checkpoint) :
    IdsInv (initial_state file ck) := by
  intro p hp
  cases file with
  | none => simp [initial_state, load_existing_data] at hp
  | some rows =>
    simp only [initial_state, load_existing_data] at hp ⊢
    exact List.mem_union_iff.mpr (.inl (List.mem_map_of_mem _ hp))


/-! ## Claim theorems -/

/-- C10: an item whose id is absent, empty, or already in `seenIds` is
skipped by `process_post` before any extraction: the record store, the id
set, `oldest_timestamp_ms` and all counters are left unchanged, and the
boundary flag is not raised — even if the item's timestamp lies below the
target cutoff.  Hence re-surfaced already-seen old posts after a resume are
skipped without ending the run. -/
theorem c10_seen_or_idless_frame (target : Int) (st : CrawlSt) (it : Item)
    (h : it.post_id = none ∨ it.post_id = some "" ∨
      ∃ pid, it.post_id = some pid ∧ pid ∈ st.collected_post_ids) :
    processWrapper target st it = (st, false) :=
  processWrapper_skip target st it (process_post_eq_none st it h)

/-- C10 witness: the already-seen item `itmOld` (id `a`, timestamp 30, far
below a cutoff of 60) is skipped with the whole state unchanged. -/
theorem c10_seen_or_idless_frame_witness :
    processWrapper 60 stSeenA itmOld = (stSeenA, false) :=
  c10_seen_or_idless_frame 60 stSeenA itmOld
    (Or.inr (Or.inr ⟨"a", by decide, by decide⟩))

/-- C8: `oldest_timestamp_ms` is monotonically non-increasing: one loop
iteration, and hence a whole run, either leaves it unchanged or replaces it
with a present timestamp strictly below the previous bound (`none` models
the initial `float('inf')`); it is never updated upward.  The
checkpoint-loaded value is just the starting bound. -/
theorem c8_oldest_monotone (target : Int) (st : CrawlSt) (b : List Item)
    (bs : List (List Item)) :
    OldStep st.oldest_timestamp_ms ((crawl_step target st b).state).oldest_timestamp_ms ∧
    OldStep st.oldest_timestamp_ms ((crawl_run target bs st).1).oldest_timestamp_ms :=
  ⟨crawl_step_oldStep target st b, crawl_run_oldStep target bs st⟩

/-- C9: `seenIds ⊇ ids of the record store` is established by the merged
loaded-from-disk initial state and preserved by every loop iteration and by
whole runs. -/
theorem c9_seen_superset (target : Int) (file : Option (List Post))
    (ck : Option Checkpoint) (st : CrawlSt) (b : List Item)
    (bs : List (List Item)) (hinv : IdsInv st) :
    IdsInv (initial_state file ck) ∧
    IdsInv ((crawl_step target st b).state) ∧
    IdsInv ((crawl_run target bs st).1) :=
  ⟨initial_state_idsInv file ck,
   idsInv_of_extendsTo hinv (crawl_step_extendsTo target st b),
   idsInv_of_extendsTo hinv (crawl_run_extendsTo target bs st)⟩

/-- C9 witness at a concrete resumed state and run. -/
theorem c9_seen_superset_witness :
    IdsInv (initial_state (some rowsOld) (some ⟨["a"], some 30, 5⟩)) ∧
    IdsInv ((crawl_step 60 stSeenA [itm1]).state) ∧
    IdsInv ((crawl_run 60 [[itm1], [itm2]] stSeenA).1) :=
  c9_seen_superset 60 (some rowsOld) (some ⟨["a"], some 30, 5⟩) stSeenA
    [itm1] [[itm1], [itm2]]
    (by
      intro p hp
      simp only [stSeenA] at hp
      rw [List.mem_singleton] at hp
      subst hp
      decide)

/-- C3: a run that starts from a loaded CrawlState whose seen ids contain
`a` never appends a new Post with id `a`: every record in the final store is
either one of the previously loaded rows or carries a different id — even if
the page re-surfaces elements with id `a`. -/
theorem c3_resume_no_reappend (target : Int) (bs : List (List Item))
    (file : Option (List Post)) (ck : Option Checkpoint) (a : String)
    (ha : a ∈ (load_checkpoint ck).1) :
    ∀ p ∈ (crawl_run target bs (initial_state file ck)).1.posts_data,
      p ∈ (load_existing_data file).1 ∨ p.post_id ≠ a := by
  intro p hp
  have hext := crawl_run_extendsTo target bs (initial_state file ck)
  rcases hext.2 p hp with hmem | ⟨hnot, _⟩
  · exact .inl hmem
  · right
    intro hpa
    apply hnot
    rw [hpa]
    exact List.mem_union_iff.mpr (.inr ha)

/-- C3 witness: resuming with checkpoint ids `{a}` over a feed that
re-surfaces id `a`; the only record of the final store is the loaded row. -/
theorem c3_resume_no_reappend_witness :
    mkPost "z" itmZ ∈
      (load_existing_data (some rowsOld)).1 ∨ (mkPost "z" itmZ).post_id ≠ "a" :=
  c3_resume_no_reappend 60 [[itmOld]] (some rowsOld) (some ⟨["a"], some 30, 5⟩)
    "a" (by decide) (mkPost "z" itmZ) (by decide)

/-- C7 counterexample: a run fed 20 consecutive non-empty, entirely
already-seen enumerations — far beyond the `no_posts_max_attempts = 10`
budget and several full escalation rounds (the stalled counter is reset by
the refresh remedy each time it reaches 5, so it never attains the
termination threshold 8) — does not become EXHAUSTED: it runs to the time
limit with `no_new_posts_count = 20`. -/
theorem c7_exhausted_unreachable_counterexample :
    (crawl_run 60 (List.replicate 20 [itmOld]) stSeenA).2 = RunOutcome.timeLimit ∧
    (crawl_run 60 (List.replicate 20 [itmOld]) stSeenA).1.no_new_posts_count = 20 :=
  ⟨by decide, by decide⟩

/-- C7 amended: a non-empty entirely-already-seen enumeration always yields
a continue outcome (recovery remedies, not termination), and no run
whatsoever ends as EXHAUSTED — the stalled-scroll counter is reset to 0 by
the refresh remedy whenever it reaches 5, so the exhaustion condition
(`no_new_posts_count ≥ 10` and `same_post_count_scrolls ≥ 8`) at
`src/scraper.py:639` is unreachable. -/
theorem c7_stall_recovery_amended (target : Int) (st st2 : CrawlSt)
    (b : List Item) (bs : List (List Item))
    (hne : b ≠ [])
    (hseen : ∀ it ∈ b, it.post_id = some (itemPid it) ∧
      itemPid it ∈ st.collected_post_ids) :
    (crawl_step target st b).isCont = true ∧
    (crawl_run target bs st2).2 ≠ RunOutcome.exhaustedRun := by
  constructor
  · have h : ∀ it ∈ b, process_post st.collected_post_ids it = none := by
      intro it hmem
      obtain ⟨hid, hin⟩ := hseen it hmem
      exact process_post_eq_none st it (.inr (.inr ⟨itemPid it, hid, hin⟩))
    rw [crawl_step_all_seen target st b hne h]
    rfl
  · exact crawl_run_not_exhausted target bs st2

/-- C7 amended, witness at a concrete stalled feed. -/
theorem c7_stall_recovery_amended_witness :
    (crawl_step 60 stSeenA [itmOld]).isCont = true ∧
    (crawl_run 60 (List.replicate 12 [itmOld]) stSeenA).2 ≠ RunOutcome.exhaustedRun :=
  c7_stall_recovery_amended 60 stSeenA stSeenA [itmOld]
    (List.replicate 12 [itmOld]) (by decide) (by decide)



/-- C5 counterexample: the persisted order is produced by pandas' default
non-stable `kind='quicksort'`, whose guaranteed contract is
`SortValuesSpec` — which does not fix the relative order of rows with equal
present timestamps.  For the two-row store `[pTieD, pTieE]` (both
timestamped 50), the swapped output `[pTieE, pTieD]` satisfies the sort
contract while the equal-timestamp rows do not retain their discovery
order, so the claimed stability on ties is not a property of the program. -/
theorem c5_tie_order_counterexample :
    SortValuesSpec [pTieD, pTieE] [pTieE, pTieD] ∧
    [pTieE, pTieD].filter (fun p => p.timestamp_ms == some 50) ≠
      [pTieD, pTieE].filter (fun p => p.timestamp_ms == some 50) := by
  refine ⟨⟨List.Perm.swap pTieD pTieE [], by decide, by decide⟩, by decide⟩

/-- C5 amended: the persisted output of a non-empty record store is written
to the canonical complete file and satisfies the sort contract of the
source's `sort_values` call: a permutation of the store sorted by
`timestamp_ms` descending, with absent-timestamp rows last and in their
discovery order; the relative order of rows with equal present timestamps
is left unspecified by the code (non-stable quicksort). -/
theorem c5_output_sorted_amended (fs : FS) (rows : List Post) (fname : String)
    (hne : rows ≠ []) :
    getFile (save_data_fs fs rows fname false).outputs completePath =
      some (sortForOutput rows) ∧
    SortValuesSpec rows (sortForOutput rows) := by
  have hsome := isEmpty_false_of_ne_nil hne
  constructor
  · simp [save_data_fs, hsome, getFile_setFile_same]
  · refine ⟨sortForOutput_perm rows, sortForOutput_pairwise rows, ?_⟩
    apply sortForOutput_filter_eq
    intro a b ha hb
    have ha' : a.timestamp_ms = none := by simpa using ha
    have hb' : b.timestamp_ms = none := by simpa using hb
    simp [postKeyLe, ha', hb']

/-- C5 amended, witness at a concrete two-row store. -/
theorem c5_output_sorted_amended_witness :
    getFile (save_data_fs fsPrev [mkPost "a" itm1, mkPost "b" itm2] "f" false).outputs
        completePath =
      some (sortForOutput [mkPost "a" itm1, mkPost "b" itm2]) ∧
    SortValuesSpec [mkPost "a" itm1, mkPost "b" itm2]
      (sortForOutput [mkPost "a" itm1, mkPost "b" itm2]) :=
  c5_output_sorted_amended fsPrev [mkPost "a" itm1, mkPost "b" itm2] "f" (by decide)

/-- C6 counterexample: the complete-file write keeps no backup.  Before the
write the canonical file holds `rowsOld`; after it, no file in the output
map holds `rowsOld` any more (and the checkpoint file is untouched), so the
previous complete content is retained nowhere. -/
theorem c6_no_backup_counterexample :
    getFile fsPrev.outputs completePath = some rowsOld ∧
    ((save_data_fs fsPrev [mkPost "a" itm1] "aave_posts_complete.csv" false).outputs.all
      (fun kv => kv.2 != rowsOld)) = true ∧
    (save_data_fs fsPrev [mkPost "a" itm1] "aave_posts_complete.csv" false).checkpoint =
      none := by
  refine ⟨by decide, ?_, rfl⟩
  simp [save_data_fs, setFile, fsPrev, sortForOutput, completePath, rowsOld]
  decide

/-- C6 amended: writing the complete record file overwrites the canonical
path in place with the sorted rows; every other file and the checkpoint are
unchanged, and no backup of the previous complete content is created. -/
theorem c6_overwrite_amended (fs : FS) (rows : List Post) (fname k : String)
    (hne : rows ≠ []) :
    getFile (save_data_fs fs rows fname false).outputs completePath =
      some (sortForOutput rows) ∧
    (k ≠ completePath →
      getFile (save_data_fs fs rows fname false).outputs k = getFile fs.outputs k) ∧
    (save_data_fs fs rows fname false).checkpoint = fs.checkpoint := by
  have hsome := isEmpty_false_of_ne_nil hne
  refine ⟨?_, ?_, ?_⟩
  · simp [save_data_fs, hsome, getFile_setFile_same]
  · intro hk
    simp [save_data_fs, hsome, getFile_setFile_other _ _ _ _ hk]
  · simp [save_data_fs, hsome]

/-- C6 amended, witness. -/
theorem c6_overwrite_amended_witness :
    getFile (save_data_fs fsPrev [mkPost "a" itm1] "x.csv" false).outputs completePath =
      some (sortForOutput [mkPost "a" itm1]) ∧
    ("other.csv" ≠ completePath →
      getFile (save_data_fs fsPrev [mkPost "a" itm1] "x.csv" false).outputs "other.csv" =
        getFile fsPrev.outputs "other.csv") ∧
    (save_data_fs fsPrev [mkPost "a" itm1] "x.csv" false).checkpoint = fsPrev.checkpoint :=
  c6_overwrite_amended fsPrev [mkPost "a" itm1] "x.csv" "other.csv" (by decide)

/-- C2: evaluation at the failing input (a crash after K = 1 Post, id `a`,
has been collected).  The handler persists all K posts (sorted) and a
checkpoint holding all collected ids — but it writes the rows to the
canonical complete file: `save_data` ignores the
`aave_posts_error_recovery.csv` filename passed by the handler, so no
error-recovery output variant is created. -/
theorem c2_error_recovery_writes_complete_file :
    (error_recovery_fs emptyFS stSeenA).checkpoint =
      some { collected_post_ids := ["a"], oldest_timestamp_ms := some 30
             scroll_count := 5 } ∧
    getFile (error_recovery_fs emptyFS stSeenA).outputs completePath =
      some (sortForOutput [mkPost "a" itmOld]) ∧
    sortForOutput [mkPost "a" itmOld] = [mkPost "a" itmOld] ∧
    getFile (error_recovery_fs emptyFS stSeenA).outputs
      "output/aave_posts_error_recovery.csv" = none := by
  refine ⟨rfl, ?_, by simp [sortForOutput], ?_⟩
  · simp [error_recovery_fs, save_data_fs, save_checkpoint_fs, emptyFS, stSeenA,
      setFile, getFile, completePath]
  · simp [error_recovery_fs, save_data_fs, save_checkpoint_fs, emptyFS, stSeenA,
      setFile, getFile, completePath]



/-- C4: processing the same item handle twice in one run is idempotent: once
an item has been collected, the dedup gate makes the very next
`process_post` call on it return `Skip` (before any extraction work), and a
run that is fed the same item in two successive enumerations ends with
exactly one Post carrying that id in the record store. -/
theorem c4_dedup_idempotent (target : Int) (st : CrawlSt) (it : Item)
    (hid : it.post_id = some (itemPid it)) (hne : itemPid it ≠ "")
    (hfresh : itemPid it ∉ st.collected_post_ids)
    (hnopost : ∀ p ∈ st.posts_data, p.post_id ≠ itemPid it) :
    process_post ((processWrapper target st it).1).collected_post_ids it = none ∧
    ((crawl_run target [[it], [it]] st).1.posts_data.countP
      (fun p => p.post_id == itemPid it)) = 1 := by
  have hpw := processWrapper_fresh target st it (itemPid it) hid hne hfresh
  have hcount0 : st.posts_data.countP (fun p => p.post_id == itemPid it) = 0 := by
    rw [List.countP_eq_zero]
    intro p hp
    simpa using hnopost p hp
  constructor
  · rw [hpw]
    apply process_post_eq_none
    exact .inr (.inr ⟨itemPid it, hid, by simp⟩)
  · by_cases hbel : truthyBelow it.post_time target = true
    · have hstep := crawl_step_boundary_batch target st [] it []
        (by intro it' h; simp only [List.nil_append, List.mem_singleton] at h; rw [h]
            exact ⟨itemPid it, hid, hne⟩)
        (by simp)
        (by intro it' h; simp only [List.nil_append, List.mem_singleton] at h; rw [h]
            exact hfresh)
        (by intro it' h; simp at h) hbel
      have hstep' : crawl_step target st [it] = .boundary (bulkAppend st [it]) := by
        simpa using hstep
      have hrun : crawl_run target [[it], [it]] st =
          (bulkAppend st [it], .boundaryReached) := by
        simp [crawl_run, hstep']
      rw [hrun]
      simp [bulkAppend, List.countP_append, hcount0, List.countP_cons, mkPost]
    · have hb : truthyBelow it.post_time target = false := by
        cases h' : truthyBelow it.post_time target
        · rfl
        · exact absurd h' hbel
      have hstep1 := crawl_step_good_batch target st [it] (by simp)
        (by intro it' h; rw [List.mem_singleton] at h; rw [h]
            exact ⟨itemPid it, hid, hne⟩)
        (by simp)
        (by intro it' h; rw [List.mem_singleton] at h; rw [h]; exact hfresh)
        (by intro it' h; rw [List.mem_singleton] at h; rw [h]; exact hb)
      have hskip2 : ∀ it' ∈ [it], process_post
          ({ bulkAppend st [it] with
             no_new_posts_count := 0
             same_post_count_scrolls := 0
             scroll_count := st.scroll_count + 1 } : CrawlSt).collected_post_ids it' = none := by
        intro it' h
        rw [List.mem_singleton] at h
        rw [h]
        apply process_post_eq_none
        refine .inr (.inr ⟨itemPid it, hid, ?_⟩)
        simp [bulkAppend]
      have hstep2 := crawl_step_all_seen target _ [it] (by simp) hskip2
      have hrun : crawl_run target [[it], [it]] st =
          crawl_run target [[it]] { bulkAppend st [it] with
            no_new_posts_count := 0
            same_post_count_scrolls := 0
            scroll_count := st.scroll_count + 1 } := by
        simp [crawl_run, hstep1]
      rw [hrun]
      have hrun2 : crawl_run target [[it]] { bulkAppend st [it] with
          no_new_posts_count := 0
          same_post_count_scrolls := 0
          scroll_count := st.scroll_count + 1 } =
          ({ bulkAppend st [it] with
             no_new_posts_count := 0 + 1
             same_post_count_scrolls := bumpStall 0
             scroll_count := st.scroll_count + 1 + 1 }, .timeLimit) := by
        simp [crawl_run, hstep2]
      rw [hrun2]
      simp [bulkAppend, List.countP_append, hcount0, List.countP_cons, mkPost]

/-- C4 witness: feeding the fresh item `itm1` in two successive
enumerations of one run leaves exactly one Post with its id. -/
theorem c4_dedup_idempotent_witness :
    process_post ((processWrapper 60 freshSt itm1).1).collected_post_ids itm1 = none ∧
    ((crawl_run 60 [[itm1], [itm1]] freshSt).1.posts_data.countP
      (fun p => p.post_id == itemPid itm1)) = 1 :=
  c4_dedup_idempotent 60 freshSt itm1 (by decide) (by decide) (by decide)
    (by intro p hp; simp [freshSt, initial_state, load_existing_data] at hp)



theorem truthyBelow_false_of_ge {o : Option Int} {ts x : Int}
    (h : o = some ts) (hge : x ≤ ts) : truthyBelow o x = false := by
  rw [h]
  simp only [truthyBelow, Bool.and_eq_false_iff, decide_eq_false_iff_not]
  right
  omega

theorem truthyBelow_true_of_lt {o : Option Int} {ts x : Int}
    (h : o = some ts) (hpos : 0 < ts) (hlt : ts < x) : truthyBelow o x = true := by
  rw [h]
  simp only [truthyBelow, Bool.and_eq_true, bne_iff_ne, ne_eq, decide_eq_true_eq]
  exact ⟨by omega, hlt⟩

/-- C1 counterexample: with cutoff 60 and a strictly decreasing feed
(timestamps 100, 50, 40), the run does stop `boundaryReached` at the first
old item (id `b`, timestamp 50 < 60) — but that item was appended to the
store before the cutoff check, so the final persisted output (what
`save_data` writes to the complete file) contains a Post with
`timestamp_ms < 60`, contradicting the claim that no Post below the cutoff
appears in the final output. -/
theorem c1_boundary_output_counterexample :
    (crawl_run 60 [[itm1, itm2, itm3]] freshSt).2 = RunOutcome.boundaryReached ∧
    truthyBelow (mkPost "b" itm2).timestamp_ms 60 = true ∧
    mkPost "b" itm2 ∈
      sortForOutput (crawl_run 60 [[itm1, itm2, itm3]] freshSt).1.posts_data ∧
    getFile (finalize_fs emptyFS (crawl_run 60 [[itm1, itm2, itm3]] freshSt).1).outputs
        completePath =
      some (sortForOutput (crawl_run 60 [[itm1, itm2, itm3]] freshSt).1.posts_data) := by
  refine ⟨by decide, by decide, ?_, ?_⟩
  · rw [sortForOutput, List.mem_mergeSort]
    decide
  · have hrun : (crawl_run 60 [[itm1, itm2, itm3]] freshSt).1.posts_data =
        [mkPost "a" itm1, mkPost "b" itm2] := by decide
    simp only [finalize_fs, save_data_fs, save_checkpoint_fs, hrun, emptyFS]
    simp [setFile, getFile]

/-- C1 amended: for a feed of well-formed fresh items with strictly
decreasing positive timestamps arriving in non-empty batches, the run stops
`boundaryReached` at the first collected item whose timestamp is below the
target cutoff; no further item of that batch or of later batches is
processed, and the only Post of the persisted (sorted) output whose
timestamp lies below the cutoff is that first boundary item itself — which,
being appended before the cutoff check, does appear in the output. -/
theorem c1_boundary_amended (target : Int) (bs : List (List Item))
    (good : List Item) (bad : Item) (rest : List Item)
    (hsplit : bs.flatten = good ++ bad :: rest)
    (hne : ∀ b ∈ bs, b ≠ [])
    (hids : ∀ it ∈ bs.flatten, it.post_id = some (itemPid it) ∧ itemPid it ≠ "")
    (hnodup : (bs.flatten.map itemPid).Nodup)
    (hts : ∀ it ∈ bs.flatten, it.post_time = some (itemTs it) ∧ 0 < itemTs it)
    (hdec : (bs.flatten.map itemTs).Pairwise (fun x y => y < x))
    (hgood : ∀ it ∈ good, target ≤ itemTs it)
    (hbad : itemTs bad < target) :
    (crawl_run target bs freshSt).2 = RunOutcome.boundaryReached ∧
    (crawl_run target bs freshSt).1.posts_data =
      (good ++ [bad]).map (fun it => mkPost (itemPid it) it) ∧
    mkPost (itemPid bad) bad ∈
      sortForOutput (crawl_run target bs freshSt).1.posts_data ∧
    ∀ p ∈ sortForOutput (crawl_run target bs freshSt).1.posts_data,
      truthyBelow p.timestamp_ms target = true → p = mkPost (itemPid bad) bad := by
  have hgoodmem : ∀ it ∈ good, it ∈ bs.flatten := by
    intro it h
    rw [hsplit]
    simp [h]
  have hbadmem : bad ∈ bs.flatten := by
    rw [hsplit]
    simp
  have hnb : ∀ it ∈ good, truthyBelow it.post_time target = false := by
    intro it h
    obtain ⟨hsome, _⟩ := hts it (hgoodmem it h)
    exact truthyBelow_false_of_ge hsome (hgood it h)
  have hbadb : truthyBelow bad.post_time target = true := by
    obtain ⟨hsome, hpos⟩ := hts bad hbadmem
    exact truthyBelow_true_of_lt hsome hpos hbad
  have hfreshc : freshSt.collected_post_ids = [] := rfl
  have hfresh0 : ∀ it ∈ bs.flatten, itemPid it ∉ freshSt.collected_post_ids := by
    intro it _ hc
    rw [hfreshc] at hc
    simp at hc
  have hids2 : ∀ it ∈ bs.flatten, ∃ pid, it.post_id = some pid ∧ pid ≠ "" := by
    intro it h
    obtain ⟨h1, h2⟩ := hids it h
    exact ⟨itemPid it, h1, h2⟩
  have hmain := crawl_run_boundary_split target bs freshSt good bad rest hsplit
    hne hids2 hnodup hfresh0 hnb hbadb
  have hfp : freshSt.posts_data = [] := rfl
  have hposts : (crawl_run target bs freshSt).1.posts_data =
      (good ++ [bad]).map (fun it => mkPost (itemPid it) it) := by
    rw [hmain.2, hfp, List.nil_append]
  refine ⟨hmain.1, hposts, ?_, ?_⟩
  · rw [sortForOutput, List.mem_mergeSort, hposts]
    simp
  · intro p hp hpb
    rw [sortForOutput, List.mem_mergeSort, hposts] at hp
    simp only [List.map_append, List.mem_append] at hp
    rcases hp with hp | hp
    · exfalso
      rw [List.mem_map] at hp
      obtain ⟨it, hit, hpe⟩ := hp
      have hts' : p.timestamp_ms = it.post_time := by
        rw [← hpe]
        rfl
      rw [hts', hnb it hit] at hpb
      exact Bool.false_ne_true hpb
    · simpa using hp

/-- C1 amended, witness: cutoff 60, batches `[[itm1], [itm2, itm3]]` with
timestamps 100, 50, 40; the run stops at `itm2` and never processes `itm3`,
and `itm2`'s Post is in the sorted output. -/
theorem c1_boundary_amended_witness :
    (crawl_run 60 [[itm1], [itm2, itm3]] freshSt).2 = RunOutcome.boundaryReached ∧
    (crawl_run 60 [[itm1], [itm2, itm3]] freshSt).1.posts_data =
      ([itm1] ++ [itm2]).map (fun it => mkPost (itemPid it) it) ∧
    mkPost (itemPid itm2) itm2 ∈
      sortForOutput (crawl_run 60 [[itm1], [itm2, itm3]] freshSt).1.posts_data := by
  have h := c1_boundary_amended 60 [[itm1], [itm2, itm3]] [itm1] itm2 [itm3]
    (by decide) (by decide) (by decide) (by decide) (by decide) (by decide)
    (by decide) (by decide)
  exact ⟨h.1, h.2.1, h.2.2.1⟩


end Scraper
